import Mathlib

/-!
Verification development for an Automerge-repo sync server running on
Cloudflare Workers.  The repository has two substantial components:

* `R2StorageAdapter` — a key-addressed storage adapter over an R2 bucket.
  Hierarchical storage keys (arrays of strings) are flattened to flat
  object keys by joining with `'/'` and recovered by splitting.
  We model JavaScript strings as `List Char` and the R2 bucket as an
  association list from flat keys to byte payloads.

* `CloudflareWebSocketAdapter` — a network adapter holding a JS `Map`
  from WebSocket handles to connection records, running the join/peer
  handshake and routing outbound messages (unicast by `targetId`,
  otherwise broadcast).  WebSocket handles are modelled as `Nat`,
  peer ids as `String` (JavaScript truthiness of a string — false
  exactly on the empty string — is modelled explicitly, since the
  source guards several branches with bare truthiness checks), and the
  opaque CBOR codec as constructor wrapping.

All definitions are translated directly from the TypeScript source.
-/

set_option autoImplicit false

namespace R2StorageAdapter

/-- The key separator used by the adapter: segments are joined with `'/'`. -/
def sep : Char := '/'

/-- Byte payloads stored in the bucket (opaque binary data). -/
abbrev Bytes := List Nat

/-- A storage key: an ordered sequence of string segments
(strings modelled as `List Char`). -/
abbrev StorageKey := List (List Char)

/-- Source `keyToString`: `key.join('/')`. -/
def keyToString : StorageKey → List Char
  | [] => []
  | [s] => s
  | s :: rest => s ++ sep :: keyToString rest

/-- JavaScript `String.prototype.split` with the single-character
separator `'/'`: always returns at least one (possibly empty) segment,
and keeps empty segments between adjacent separators. -/
def splitOnSep : List Char → StorageKey
  | [] => [[]]
  | c :: rest =>
    if c = sep then [] :: splitOnSep rest
    else
      match splitOnSep rest with
      | [] => [[c]]
      | seg :: segs => (c :: seg) :: segs

/-- Source `stringToKey`: `key.split('/')`. -/
def stringToKey (key : List Char) : StorageKey := splitOnSep key

/-- JavaScript `String.prototype.endsWith('/')` (false on the empty string). -/
def endsWithSep (s : List Char) : Bool :=
  match s.getLast? with
  | some c => c == sep
  | none => false

/-- The listing prefix built by `loadRange`/`removeRange`:
`prefix + (prefix.endsWith('/') ? '' : '/')`. -/
def rangePfx (kp : StorageKey) : List Char :=
  let p := keyToString kp
  p ++ (if endsWithSep p then [] else [sep])

/-- The R2 bucket, modelled as an association list from flat object keys
to payloads. -/
abbrev Bucket := List (List Char × Bytes)

/-- R2 `bucket.get(key)`: the payload stored at a flat key, if any. -/
def bucketGet (b : Bucket) (k : List Char) : Option Bytes :=
  (b.find? (fun q => q.1 == k)).map (fun q => q.2)

/-- R2 `bucket.put(key, data)`: overwrite-write at a flat key. -/
def bucketPut (b : Bucket) (k : List Char) (v : Bytes) : Bucket :=
  (b.filter (fun q => !(q.1 == k))) ++ [(k, v)]

/-- R2 `bucket.delete(key)`: remove the object at a flat key (no-op when absent). -/
def bucketDelete (b : Bucket) (k : List Char) : Bucket :=
  b.filter (fun q => !(q.1 == k))

/-- R2 listing: the flat keys of all stored objects whose key
starts with the given listing prefix. -/
def bucketList (b : Bucket) (pfx : List Char) : List (List Char) :=
  (b.filter (fun q => pfx.isPrefixOf q.1)).map (fun q => q.1)

/-- A chunk returned by `loadRange`: a key together with the loaded
payload (`none` when the object could not be read). -/
structure Chunk where
  key : StorageKey
  data : Option Bytes
deriving DecidableEq

/-- Source `load`: fetch one blob at the flattened key. -/
def load (b : Bucket) (key : StorageKey) : Option Bytes :=
  bucketGet b (keyToString key)

/-- Source `save`: put one blob at the flattened key. -/
def save (b : Bucket) (key : StorageKey) (data : Bytes) : Bucket :=
  bucketPut b (keyToString key) data

/-- Source `remove`: delete one blob at the flattened key. -/
def remove (b : Bucket) (key : StorageKey) : Bucket :=
  bucketDelete b (keyToString key)

/-- Source `loadRange`: list every object whose flat key starts
with the listing prefix (the flattened key prefix with a trailing `'/'`
appended unless it already ends with one), then load each listed key. -/
def loadRange (b : Bucket) (kp : StorageKey) : List Chunk :=
  (bucketList b (rangePfx kp)).map
    (fun k => { key := stringToKey k, data := load b (stringToKey k) })

/-- Source `removeRange`: list every object whose flat key starts
with the listing prefix, then delete each listed key. -/
def removeRange (b : Bucket) (kp : StorageKey) : Bucket :=
  (bucketList b (rangePfx kp)).foldl bucketDelete b

end R2StorageAdapter

namespace CloudflareWebSocketAdapter

/-- JavaScript truthiness of an optional string field (`undefined`/`null`
and the empty string are falsy; every other string is truthy).  The source
guards several branches with bare `if (value)` checks on such fields. -/
def truthy : Option String → Bool
  | none => false
  | some s => !(s == "")

/-- Peer metadata, an opaque attribute object supplied at join time
(modelled as a list of string key/value fields). -/
abbrev PeerMetadata := List (String × String)

/-- The empty metadata object `{}` substituted when a join frame carries
no metadata. -/
def emptyMetadata : PeerMetadata := []

/-- A connection record (`WebSocketConnection` in the source): the peer id
bound by a join frame (`null` until then) and the metadata it supplied.
The `ws` field of the source record is the map key and is kept there. -/
structure WebSocketConnection where
  peerId : Option String
  peerMetadata : Option PeerMetadata
deriving DecidableEq

/-- A generic repo protocol message (any decoded frame whose `type` is not
`'join'`): the routing fields the adapter reads plus an opaque payload. -/
structure RepoMessage where
  type : String
  senderId : String
  targetId : Option String
  payload : List Nat
deriving DecidableEq

/-- A successfully decoded inbound frame: either a join frame or any other
repo message (the source dispatches on `decoded.type === 'join'`). -/
inductive Decoded where
  | joinMsg (senderId : String) (peerMetadata : Option PeerMetadata)
      (supportedProtocolVersions : List String)
  | repoMsg (m : RepoMessage)
deriving DecidableEq

/-- A raw inbound wire message: either bytes that the opaque CBOR codec
decodes to a frame, or malformed bytes on which decoding throws. -/
inductive RawMessage where
  | valid (d : Decoded)
  | malformed
deriving DecidableEq

/-- The opaque codec boundary `cbor.decode`: decoding malformed bytes
throws (modelled as `Except.error`). -/
def cborDecode : RawMessage → Except String Decoded
  | .valid d => .ok d
  | .malformed => .error "cbor decode failed"

/-- An outbound structured message handed to `cbor.encode`. -/
inductive OutboundMsg where
  | peer (senderId : String) (peerMetadata : Option PeerMetadata)
      (targetId : String) (selectedProtocolVersion : String)
  | repo (m : RepoMessage)
deriving DecidableEq

/-- An encoded outbound message.  The codec is opaque, so the encoding is
modelled as injective constructor wrapping. -/
structure Encoded where
  payload : OutboundMsg
deriving DecidableEq

/-- The opaque codec boundary `cbor.encode` for outbound messages. -/
def cborEncode (m : OutboundMsg) : Encoded := ⟨m⟩

/-- An observable effect of an adapter operation: a write to a WebSocket,
an event emitted to the repo (merge engine), a close of a WebSocket, or a
`console.error` log. -/
inductive Output where
  | wsSend (ws : Nat) (data : Encoded)
  | emitPeerCandidate (peerId : String) (peerMetadata : PeerMetadata)
  | emitMessage (m : RepoMessage)
  | emitClose
  | wsClose (ws : Nat)
  | logError
deriving DecidableEq

/-- The JS `Map` holding the connection registry, keyed by WebSocket
handle; iteration order is insertion order. -/
abbrev ConnMap := List (Nat × WebSocketConnection)

/-- JS `Map.get`. -/
def mapGet (k : Nat) (l : ConnMap) : Option WebSocketConnection :=
  (l.find? (fun q => q.1 == k)).map (fun q => q.2)

/-- JS `Map.set`: updates in place when the key is present (keeping its
position), otherwise appends. -/
def mapSet (k : Nat) (v : WebSocketConnection) : ConnMap → ConnMap
  | [] => [(k, v)]
  | (k', v') :: rest =>
    if k' == k then (k, v) :: rest else (k', v') :: mapSet k v rest

/-- JS `Map.delete`. -/
def mapDelete (k : Nat) (l : ConnMap) : ConnMap :=
  l.filter (fun q => !(q.1 == k))

/-- The adapter state: the connection map, the `isConnected` flag, and the
`peerId`/`peerMetadata` fields inherited from `NetworkAdapter` (set by
`connect`, `undefined` before). -/
structure AdapterState where
  connections : ConnMap
  isConnected : Bool
  peerId : Option String
  peerMetadata : Option PeerMetadata
deriving DecidableEq

/-- The freshly constructed adapter: no connections, not connected, no
bound identity. -/
def initialState : AdapterState :=
  { connections := [], isConnected := false, peerId := none, peerMetadata := none }

/-- Source `addConnection`: register a WebSocket with a fresh record
(`peerId: null`, `peerMetadata: undefined`). -/
def addConnection (s : AdapterState) (ws : Nat) : AdapterState :=
  { s with connections := mapSet ws { peerId := none, peerMetadata := none } s.connections }

/-- Source `removeConnection`: delete the record; if the map became empty, clear
`isConnected`. -/
def removeConnection (s : AdapterState) (ws : Nat) : AdapterState :=
  let c := mapDelete ws s.connections
  { s with connections := c, isConnected := if c.isEmpty then false else s.isConnected }

/-- The try/catch body of `handleMessage` after the registry lookup:
decode failure is logged and swallowed; a join frame binds
`peerId`/`peerMetadata` onto the record, answers with a `peer` frame when
the adapter's own identity is (truthily) set, and emits a
`peer-candidate` event; any other frame is emitted as a `message` event. -/
def handleMessageAux (s : AdapterState) (ws : Nat) :
    Except String Decoded → AdapterState × List Output
  | .error _ => (s, [Output.logError])
  | .ok (.joinMsg senderId meta _) =>
    let conns := mapSet ws { peerId := some senderId, peerMetadata := meta } s.connections
    let sendOuts : List Output :=
      match s.peerId with
      | some selfId =>
        if selfId == "" then []
        else [Output.wsSend ws
          (cborEncode (.peer selfId s.peerMetadata senderId "1"))]
      | none => []
    ({ s with connections := conns },
      sendOuts ++ [Output.emitPeerCandidate senderId (meta.getD emptyMetadata)])
  | .ok (.repoMsg m) => (s, [Output.emitMessage m])

/-- The trailing readiness update of `handleMessage`: if `isConnected` is
not yet set, the own identity is (truthily) set, and at least one
connection exists, set `isConnected`. -/
def applyReadiness (p : AdapterState × List Output) : AdapterState × List Output :=
  (if !p.1.isConnected && truthy p.1.peerId && !p.1.connections.isEmpty then
    { p.1 with isConnected := true }
  else p.1, p.2)

def handleMessage (s : AdapterState) (ws : Nat) (message : RawMessage) :
    AdapterState × List Output :=
  match mapGet ws s.connections with
  | none => (s, [])
  | some _ => applyReadiness (handleMessageAux s ws (cborDecode message))

/-- Source `connect`: bind the adapter's own `peerId`/`peerMetadata`; if
connections already exist, set `isConnected`. -/
def connect (s : AdapterState) (pid : String) (meta : Option PeerMetadata) : AdapterState :=
  let s' := { s with peerId := some pid, peerMetadata := meta }
  if !s'.connections.isEmpty then { s' with isConnected := true } else s'

/-- The open/closed state of each WebSocket transport
(`ws.readyState === WebSocket.READY_STATE_OPEN`), external to the adapter. -/
abbrev ReadyStates := Nat → Bool

/-- The unicast loop of `send`: walk the connection map in insertion order
and write the encoded message to the first record whose `peerId` equals
the target and whose transport is open, then return. -/
def sendTo (env : ReadyStates) (t : String) (m : RepoMessage) : ConnMap → List Output
  | [] => []
  | (ws, c) :: rest =>
    if c.peerId == some t && env ws then
      [Output.wsSend ws (cborEncode (.repo m))]
    else sendTo env t m rest

/-- The broadcast loop of `send`: write the (once-)encoded message to
every record with a truthy `peerId` and an open transport. -/
def broadcastTo (env : ReadyStates) (e : Encoded) : ConnMap → List Output
  | [] => []
  | (ws, c) :: rest =>
    if truthy c.peerId && env ws then
      Output.wsSend ws e :: broadcastTo env e rest
    else broadcastTo env e rest

/-- Source `send`: read `message.targetId`; when truthy, unicast to the first
matching open joined connection; otherwise encode once and broadcast. -/
def send (s : AdapterState) (env : ReadyStates) (m : RepoMessage) : List Output :=
  if truthy m.targetId then
    sendTo env (m.targetId.getD "") m s.connections
  else
    broadcastTo env (cborEncode (.repo m)) s.connections

/-- Source `disconnect`: close every open transport, clear the connection map,
clear `isConnected`, and emit a `close` event. -/
def disconnect (s : AdapterState) (env : ReadyStates) : AdapterState × List Output :=
  ({ s with connections := [], isConnected := false },
    (s.connections.filterMap (fun q => if env q.1 then some (Output.wsClose q.1) else none))
      ++ [Output.emitClose])

/-- Source `isReady`: `isConnected && this.peerId !== undefined`. -/
def isReady (s : AdapterState) : Bool :=
  s.isConnected && s.peerId.isSome

/-- One relay operation, for reasoning about operation sequences. -/
inductive Op where
  | addConnection (ws : Nat)
  | removeConnection (ws : Nat)
  | handleMessage (ws : Nat) (message : RawMessage)
  | connect (pid : String) (meta : Option PeerMetadata)
  | disconnect (env : ReadyStates)

/-- The state transition of one operation (outputs discarded). -/
def step (s : AdapterState) : Op → AdapterState
  | .addConnection ws => addConnection s ws
  | .removeConnection ws => removeConnection s ws
  | .handleMessage ws m => (handleMessage s ws m).1
  | .connect pid meta => connect s pid meta
  | .disconnect env => (disconnect s env).1

/-- Run a sequence of operations from a starting state. -/
def foldSteps (s : AdapterState) (ops : List Op) : AdapterState :=
  ops.foldl step s

/-- Run a sequence of operations from the freshly constructed adapter. -/
def runOps (ops : List Op) : AdapterState :=
  foldSteps initialState ops

/-- Whether a sequence contains a `connect` operation. -/
def hasConnectOp (ops : List Op) : Bool :=
  ops.any fun op => match op with | .connect _ _ => true | _ => false

/-- Whether a sequence contains an `addConnection` operation. -/
def hasAddOp (ops : List Op) : Bool :=
  ops.any fun op => match op with | .addConnection _ => true | _ => false

end CloudflareWebSocketAdapter

namespace R2StorageAdapter

theorem splitOnSep_ne_nil (s : List Char) : splitOnSep s ≠ [] := by
  induction s with
  | nil => simp [splitOnSep]
  | cons c rest ih =>
    simp only [splitOnSep]
    split
    · simp
    · cases h : splitOnSep rest with
      | nil => exact absurd h ih
      | cons seg segs => simp [h]

theorem splitOnSep_no_sep (seg : List Char) (h : sep ∉ seg) : splitOnSep seg = [seg] := by
  induction seg with
  | nil => rfl
  | cons c rest ih =>
    have hc : ¬ c = sep := fun hc => h (hc ▸ List.mem_cons_self c rest)
    have hrest : sep ∉ rest := fun hr => h (List.mem_cons_of_mem c hr)
    simp only [splitOnSep, if_neg hc, ih hrest]

theorem splitOnSep_append (seg rest : List Char) (h : sep ∉ seg) :
    splitOnSep (seg ++ sep :: rest) = seg :: splitOnSep rest := by
  induction seg with
  | nil => simp [splitOnSep]
  | cons c seg' ih =>
    have hc : ¬ c = sep := fun hc => h (hc ▸ List.mem_cons_self c seg')
    have hseg : sep ∉ seg' := fun hr => h (List.mem_cons_of_mem c hr)
    simp only [List.cons_append, splitOnSep, if_neg hc]
    rw [List.append_eq, ih hseg]

theorem keyToString_cons (s : List Char) (l : StorageKey) (h : l ≠ []) :
    keyToString (s :: l) = s ++ sep :: keyToString l := by
  cases l with
  | nil => exact absurd rfl h
  | cons s' l' => rfl

/-- Flattening after unflattening recovers any flat key: splitting on `'/'`
and re-joining with `'/'` is the identity on strings. -/
theorem keyToString_stringToKey (s : List Char) : keyToString (stringToKey s) = s := by
  induction s with
  | nil => rfl
  | cons c rest ih =>
    simp only [stringToKey] at ih ⊢
    simp only [splitOnSep]
    by_cases hc : c = sep
    · rw [if_pos hc, keyToString_cons _ _ (splitOnSep_ne_nil rest), ih, hc]
      rfl
    · rw [if_neg hc]
      cases hsplit : splitOnSep rest with
      | nil => exact absurd hsplit (splitOnSep_ne_nil rest)
      | cons seg segs =>
        rw [hsplit] at ih
        cases segs with
        | nil =>
          simp only [keyToString] at ih ⊢
          rw [ih]
        | cons seg' segs' =>
          rw [keyToString_cons _ _ (by simp), List.cons_append,
            ← keyToString_cons seg (seg' :: segs') (by simp), ih]

/-- Claim C1 counterexample: the empty storage key (which vacuously has no
segment containing `'/'`) does not round-trip — `[].join('/')` is the
empty string, and splitting the empty string yields `[""]`, not `[]`. -/
theorem claim_C1_counterexample :
    stringToKey (keyToString ([] : StorageKey)) = [[]] ∧ ([[]] : StorageKey) ≠ [] := by
  constructor
  · rfl
  · simp

/-- Claim C1 (amended): for every **nonempty** storage key whose segments
contain no `'/'`, unflattening the flattened form recovers the key:
`stringToKey (keyToString k) = k`. -/
theorem claim_C1 (k : StorageKey) (hne : k ≠ [])
    (h : ∀ seg ∈ k, sep ∉ seg) : stringToKey (keyToString k) = k := by
  induction k with
  | nil => exact absurd rfl hne
  | cons s rest ih =>
    cases rest with
    | nil =>
      simp only [keyToString, stringToKey]
      exact splitOnSep_no_sep s (h s (List.mem_cons_self s []))
    | cons s' rest' =>
      rw [keyToString_cons s (s' :: rest') (by simp)]
      simp only [stringToKey] at ih ⊢
      rw [splitOnSep_append s _ (h s (List.mem_cons_self s (s' :: rest')))]
      rw [ih (by simp) (fun seg hseg => h seg (List.mem_cons_of_mem s hseg))]

/-- Witness for claim C1 at the concrete key `["doc", "a"]`. -/
theorem claim_C1_witness :
    stringToKey (keyToString [['d','o','c'], ['a']]) = [['d','o','c'], ['a']] :=
  claim_C1 [['d','o','c'], ['a']] (by decide) (by decide)

theorem bucketGet_mem (b : Bucket) (k : List Char) (v : Bytes)
    (hnd : (b.map Prod.fst).Nodup) (hmem : (k, v) ∈ b) : bucketGet b k = some v := by
  induction b with
  | nil => cases hmem
  | cons q rest ih =>
    simp only [List.map_cons, List.nodup_cons] at hnd
    rcases List.mem_cons.mp hmem with heq | hmem'
    · subst heq
      simp [bucketGet]
    · have hk : ¬ (q.1 == k) = true := by
        simp only [beq_iff_eq]
        intro hqk
        exact hnd.1 (List.mem_map.mpr ⟨(k, v), hmem', by simp [hqk]⟩)
      have hkf : (q.1 == k) = false := by
        cases hb : (q.1 == k) with
        | false => rfl
        | true => exact absurd hb hk
      rw [bucketGet, List.find?_cons]
      simp only [hkf, cond_false]
      exact ih hnd.2 hmem'

/-- Claim C2: under distinct stored keys, `loadRange` returns exactly the
stored entries whose flat key starts with the listing prefix (the
flattened key prefix with `'/'` appended unless it already ends with
`'/'`), each listed once, with its unflattened key and loaded payload. -/
theorem claim_C2 (b : Bucket) (kp : StorageKey) (hnd : (b.map Prod.fst).Nodup) :
    loadRange b kp =
      (b.filter (fun q => (rangePfx kp).isPrefixOf q.1)).map
        (fun q => { key := stringToKey q.1, data := some q.2 : Chunk }) := by
  unfold loadRange bucketList
  rw [List.map_map]
  apply List.map_congr_left
  intro q hq
  have hqb : q ∈ b := List.mem_of_mem_filter hq
  simp only [Function.comp_apply, Chunk.mk.injEq, true_and]
  show load b (stringToKey q.1) = some q.2
  unfold load
  rw [keyToString_stringToKey]
  exact bucketGet_mem b q.1 q.2 hnd (by simpa using hqb)

/-- Witness for claim C2: with objects stored at flat keys `"doc1/a"` and
`"doc10/a"`, `loadRange(["doc1"])` returns only the entry under
`["doc1","a"]` and never the sibling `["doc10","a"]`. -/
theorem claim_C2_witness :
    loadRange
        [(['d','o','c','1','/','a'], [1]), (['d','o','c','1','0','/','a'], [2])]
        [['d','o','c','1']]
      = [{ key := [['d','o','c','1'], ['a']], data := some [1] }] := by
  rw [claim_C2 _ _ (by decide)]
  decide

theorem mem_bucketDelete (b : Bucket) (k : List Char) (q : List Char × Bytes) :
    q ∈ bucketDelete b k ↔ q ∈ b ∧ ¬ q.1 = k := by
  simp [bucketDelete, List.mem_filter]

theorem mem_foldl_bucketDelete (ks : List (List Char)) (b : Bucket)
    (q : List Char × Bytes) :
    q ∈ ks.foldl bucketDelete b ↔ q ∈ b ∧ q.1 ∉ ks := by
  induction ks generalizing b with
  | nil => simp
  | cons k ks ih =>
    simp only [List.foldl_cons, ih, mem_bucketDelete, List.mem_cons]
    constructor
    · rintro ⟨⟨hb, hne⟩, hnotin⟩
      exact ⟨hb, fun h => h.elim hne hnotin⟩
    · rintro ⟨hb, hnot⟩
      exact ⟨⟨hb, fun h => hnot (Or.inl h)⟩, fun h => hnot (Or.inr h)⟩

theorem mem_removeRange (b : Bucket) (kp : StorageKey) (q : List Char × Bytes) :
    q ∈ removeRange b kp ↔ q ∈ b ∧ ¬ (rangePfx kp).isPrefixOf q.1 := by
  unfold removeRange
  rw [mem_foldl_bucketDelete]
  unfold bucketList
  constructor
  · rintro ⟨hb, hnot⟩
    refine ⟨hb, fun hpfx => hnot ?_⟩
    exact List.mem_map.mpr ⟨q, List.mem_filter.mpr ⟨hb, hpfx⟩, rfl⟩
  · rintro ⟨hb, hnpfx⟩
    refine ⟨hb, fun hmem => ?_⟩
    rcases List.mem_map.mp hmem with ⟨q', hq', hfst⟩
    exact hnpfx (hfst ▸ (List.mem_filter.mp hq').2)

theorem loadRange_eq_nil (b : Bucket) (kp : StorageKey)
    (h : ∀ q ∈ b, ¬ (rangePfx kp).isPrefixOf q.1) : loadRange b kp = [] := by
  unfold loadRange bucketList
  rw [List.filter_eq_nil_iff.mpr h]
  rfl

theorem mem_bucketPut (b : Bucket) (k : List Char) (v : Bytes)
    (q : List Char × Bytes) (h : q ∈ bucketPut b k v) : q ∈ b ∨ q = (k, v) := by
  simp only [bucketPut, List.mem_append, List.mem_filter, List.mem_singleton] at h
  exact h.imp (fun hh => hh.1) id

/-- Claim C8: `removeRange` deletes exactly the stored objects matching
the `loadRange` prefix rule: matching objects are gone, non-matching
sibling objects are untouched, and a subsequent `loadRange` under the
same key prefix returns the empty sequence — even after an interleaved
`save` under a non-matching sibling key. -/
theorem claim_C8 (b : Bucket) (kp : StorageKey) :
    loadRange (removeRange b kp) kp = []
    ∧ (∀ q ∈ b, (rangePfx kp).isPrefixOf q.1 → q ∉ removeRange b kp)
    ∧ (∀ q ∈ b, ¬ (rangePfx kp).isPrefixOf q.1 → q ∈ removeRange b kp)
    ∧ (∀ q ∈ removeRange b kp, q ∈ b)
    ∧ (∀ (k' : StorageKey) (d : Bytes), ¬ (rangePfx kp).isPrefixOf (keyToString k') →
        loadRange (save (removeRange b kp) k' d) kp = []) := by
  refine ⟨?_, ?_, ?_, ?_, ?_⟩
  · exact loadRange_eq_nil _ _ (fun q hq => ((mem_removeRange b kp q).mp hq).2)
  · intro q hq hpfx hmem
    exact ((mem_removeRange b kp q).mp hmem).2 hpfx
  · intro q hq hnpfx
    exact (mem_removeRange b kp q).mpr ⟨hq, hnpfx⟩
  · intro q hq
    exact ((mem_removeRange b kp q).mp hq).1
  · intro k' d hk'
    apply loadRange_eq_nil
    intro q hq
    rcases mem_bucketPut _ _ _ _ hq with hmem | heq
    · exact ((mem_removeRange b kp q).mp hmem).2
    · rw [heq]
      exact hk'

/-- Witness for claim C8: removing the range under `["doc1"]`, then saving
under the non-matching sibling key `["doc10","b"]`, still yields an empty
`loadRange(["doc1"])`. -/
theorem claim_C8_witness :
    loadRange
        (save
          (removeRange
            [(['d','o','c','1','/','a'], [1]), (['d','o','c','1','0','/','a'], [2])]
            [['d','o','c','1']])
          [['d','o','c','1','0'], ['b']] [7])
        [['d','o','c','1']]
      = [] :=
  (claim_C8
      [(['d','o','c','1','/','a'], [1]), (['d','o','c','1','0','/','a'], [2])]
      [['d','o','c','1']]).2.2.2.2
    [['d','o','c','1','0'], ['b']] [7] (by decide)

end R2StorageAdapter

namespace CloudflareWebSocketAdapter

theorem mapGet_nil (k : Nat) : mapGet k ([] : ConnMap) = none := rfl

theorem mapGet_ne_nil (k : Nat) (l : ConnMap) (r : WebSocketConnection)
    (h : mapGet k l = some r) : l ≠ [] := by
  intro hl
  rw [hl, mapGet_nil] at h
  cases h

theorem mapSet_ne_nil (k : Nat) (v : WebSocketConnection) (l : ConnMap) :
    mapSet k v l ≠ [] := by
  cases l with
  | nil => simp [mapSet]
  | cons q rest =>
    obtain ⟨k', v'⟩ := q
    simp only [mapSet]
    split <;> simp

theorem mapGet_mapSet_self (k : Nat) (v : WebSocketConnection) (l : ConnMap) :
    mapGet k (mapSet k v l) = some v := by
  induction l with
  | nil => simp [mapGet, mapSet]
  | cons q rest ih =>
    obtain ⟨k', v'⟩ := q
    simp only [mapSet]
    by_cases hk : k' = k
    · simp [mapGet, hk]
    · have hkb : (k' == k) = false := by simp [hk]
      simp only [hkb, Bool.false_eq_true, if_false]
      simp only [mapGet, List.find?_cons, hkb, cond_false]
      exact ih

theorem handleMessage_unregistered (s : AdapterState) (ws : Nat) (m : RawMessage)
    (h : mapGet ws s.connections = none) : handleMessage s ws m = (s, []) := by
  unfold handleMessage
  rw [h]

theorem handleMessage_registered (s : AdapterState) (ws : Nat) (m : RawMessage)
    (r : WebSocketConnection) (h : mapGet ws s.connections = some r) :
    handleMessage s ws m = applyReadiness (handleMessageAux s ws (cborDecode m)) := by
  unfold handleMessage
  rw [h]

theorem applyReadiness_snd (p : AdapterState × List Output) :
    (applyReadiness p).2 = p.2 := rfl

theorem applyReadiness_connections (p : AdapterState × List Output) :
    (applyReadiness p).1.connections = p.1.connections := by
  unfold applyReadiness
  split <;> rfl

theorem applyReadiness_peerId (p : AdapterState × List Output) :
    (applyReadiness p).1.peerId = p.1.peerId := by
  unfold applyReadiness
  split <;> rfl

theorem applyReadiness_peerMetadata (p : AdapterState × List Output) :
    (applyReadiness p).1.peerMetadata = p.1.peerMetadata := by
  unfold applyReadiness
  split <;> rfl

theorem applyReadiness_isConnected_mono (p : AdapterState × List Output)
    (h : p.1.isConnected = true) : (applyReadiness p).1.isConnected = true := by
  unfold applyReadiness
  split
  · rfl
  · exact h

theorem handleMessageAux_fst_peerId (s : AdapterState) (ws : Nat)
    (e : Except String Decoded) : (handleMessageAux s ws e).1.peerId = s.peerId := by
  cases e with
  | error a => rfl
  | ok d => cases d <;> rfl

theorem handleMessageAux_fst_peerMetadata (s : AdapterState) (ws : Nat)
    (e : Except String Decoded) :
    (handleMessageAux s ws e).1.peerMetadata = s.peerMetadata := by
  cases e with
  | error a => rfl
  | ok d => cases d <;> rfl

theorem handleMessageAux_fst_isConnected (s : AdapterState) (ws : Nat)
    (e : Except String Decoded) :
    (handleMessageAux s ws e).1.isConnected = s.isConnected := by
  cases e with
  | error a => rfl
  | ok d => cases d <;> rfl

theorem handleMessageAux_fst_connections_ne (s : AdapterState) (ws : Nat)
    (e : Except String Decoded) (h : s.connections ≠ []) :
    (handleMessageAux s ws e).1.connections ≠ [] := by
  cases e with
  | error a => exact h
  | ok d =>
    cases d with
    | joinMsg senderId meta vers => exact mapSet_ne_nil _ _ _
    | repoMsg mm => exact h

/-- The first component of `handleMessage`: the own identity fields are
untouched, a set `isConnected` flag stays set, and with a registered
WebSocket the connection map stays nonempty. -/
theorem handleMessage_fst_spec (s : AdapterState) (ws : Nat) (m : RawMessage) :
    (handleMessage s ws m).1.peerId = s.peerId
    ∧ (handleMessage s ws m).1.peerMetadata = s.peerMetadata
    ∧ (s.isConnected = true → (handleMessage s ws m).1.isConnected = true)
    ∧ (∀ r, mapGet ws s.connections = some r → (handleMessage s ws m).1.connections ≠ []) := by
  cases hget : mapGet ws s.connections with
  | none =>
    rw [handleMessage_unregistered s ws m hget]
    exact ⟨rfl, rfl, fun h => h, fun r hr => by cases hr⟩
  | some r =>
    rw [handleMessage_registered s ws m r hget]
    refine ⟨?_, ?_, ?_, ?_⟩
    · rw [applyReadiness_peerId, handleMessageAux_fst_peerId]
    · rw [applyReadiness_peerMetadata, handleMessageAux_fst_peerMetadata]
    · intro h
      exact applyReadiness_isConnected_mono _
        (by rw [handleMessageAux_fst_isConnected]; exact h)
    · intro r' _
      rw [applyReadiness_connections]
      exact handleMessageAux_fst_connections_ne s ws _
        (mapGet_ne_nil ws s.connections r hget)

/-- Claim C10: `handleMessage` on a WebSocket that is not in the
connection registry is a complete no-op — no decode, no event, no write,
and the whole adapter state (connection set and readiness flag included)
unchanged. -/
theorem claim_C10 (s : AdapterState) (ws : Nat) (m : RawMessage)
    (h : mapGet ws s.connections = none) : handleMessage s ws m = (s, []) :=
  handleMessage_unregistered s ws m h

/-- Witness for claim C10 on the fresh adapter (empty registry). -/
theorem claim_C10_witness :
    handleMessage initialState 0 (RawMessage.valid (Decoded.repoMsg
        { type := "sync", senderId := "A", targetId := none, payload := [] }))
      = (initialState, []) :=
  claim_C10 initialState 0 _ rfl

/-- Claim C7: on a registered connection, a malformed frame is swallowed
inside the decode try/catch — `handleMessage` returns normally with only
a `console.error` log, surfaces no event to the repo, and leaves the
connection map unchanged. -/
theorem claim_C7 (s : AdapterState) (ws : Nat) (r : WebSocketConnection)
    (h : mapGet ws s.connections = some r) :
    (handleMessage s ws RawMessage.malformed).1.connections = s.connections
    ∧ (handleMessage s ws RawMessage.malformed).2 = [Output.logError] := by
  rw [handleMessage_registered s ws RawMessage.malformed r h]
  constructor
  · rw [applyReadiness_connections]
    rfl
  · rfl

/-- Witness for claim C7 on a one-connection adapter. -/
theorem claim_C7_witness :
    (handleMessage (addConnection initialState 0) 0 RawMessage.malformed).1.connections
        = (addConnection initialState 0).connections
    ∧ (handleMessage (addConnection initialState 0) 0 RawMessage.malformed).2
        = [Output.logError] :=
  claim_C7 (addConnection initialState 0) 0 { peerId := none, peerMetadata := none } rfl

/-- Claim C3 counterexample: after a join frame with senderId `"A"`, a
second join frame with senderId `"B"` on the same connection overwrites
the recorded identity — it ends up `"B"`, not `"A"` as the claim states. -/
theorem claim_C3_counterexample :
    (mapGet 0 ((handleMessage
        ((handleMessage (addConnection initialState 0) 0
          (RawMessage.valid (Decoded.joinMsg "A" none []))).1) 0
        (RawMessage.valid (Decoded.joinMsg "B" none []))).1.connections)).map
          (fun c => c.peerId) = some (some "B")
    ∧ some (some "B") ≠ some (some ("A" : String)) := by
  refine ⟨rfl, ?_⟩
  simp

/-- Claim C3 (amended): the peer identity recorded on a Connection Record
is last-writer: every join frame (first or later) overwrites it, so after
processing a join frame with senderId `B` the recorded identity equals
`B`, whatever was recorded before. -/
theorem claim_C3 (s : AdapterState) (ws : Nat) (r : WebSocketConnection)
    (b : String) (meta : Option PeerMetadata) (vers : List String)
    (h : mapGet ws s.connections = some r) :
    mapGet ws ((handleMessage s ws (RawMessage.valid (Decoded.joinMsg b meta vers))).1.connections)
      = some { peerId := some b, peerMetadata := meta } := by
  rw [handleMessage_registered s ws _ r h, applyReadiness_connections]
  exact mapGet_mapSet_self ws _ s.connections

/-- Witness for claim C3: a join with senderId `"B"` on an already-joined
connection records `"B"`. -/
theorem claim_C3_witness :
    mapGet 0 ((handleMessage
        ((handleMessage (addConnection initialState 0) 0
          (RawMessage.valid (Decoded.joinMsg "A" none []))).1) 0
        (RawMessage.valid (Decoded.joinMsg "B" none []))).1.connections)
      = some { peerId := some "B", peerMetadata := none } :=
  claim_C3 _ 0 { peerId := some "A", peerMetadata := none } "B" none [] rfl

/-- Claim C9: a join frame on a registered connection records the frame's
senderId and metadata onto the Connection Record; when the relay's own
identity is (truthily) bound, it first replies to that same connection
with the encoded peer frame `{type: peer, senderId: selfId, peerMetadata:
selfMetadata, targetId: join senderId, selectedProtocolVersion: "1"}`,
and when the identity is unbound it sends no reply; in either case it
then emits the peer-candidate notification carrying the joined peer's id
and metadata, with the empty object substituted when metadata is absent. -/
theorem claim_C9 (s : AdapterState) (ws : Nat) (r : WebSocketConnection)
    (senderId : String) (meta : Option PeerMetadata) (vers : List String)
    (h : mapGet ws s.connections = some r) :
    (mapGet ws ((handleMessage s ws
          (RawMessage.valid (Decoded.joinMsg senderId meta vers))).1.connections)
        = some { peerId := some senderId, peerMetadata := meta })
    ∧ (∀ selfId, s.peerId = some selfId → selfId ≠ "" →
        (handleMessage s ws (RawMessage.valid (Decoded.joinMsg senderId meta vers))).2
          = [Output.wsSend ws
               (cborEncode (OutboundMsg.peer selfId s.peerMetadata senderId "1")),
             Output.emitPeerCandidate senderId (meta.getD emptyMetadata)])
    ∧ (s.peerId = none →
        (handleMessage s ws (RawMessage.valid (Decoded.joinMsg senderId meta vers))).2
          = [Output.emitPeerCandidate senderId (meta.getD emptyMetadata)]) := by
  rw [handleMessage_registered s ws _ r h]
  refine ⟨?_, ?_, ?_⟩
  · rw [applyReadiness_connections]
    exact mapGet_mapSet_self ws _ s.connections
  · intro selfId hself hne
    rw [applyReadiness_snd]
    show (handleMessageAux s ws (Except.ok (Decoded.joinMsg senderId meta vers))).2 = _
    simp only [handleMessageAux, hself]
    simp [hne]
  · intro hnone
    rw [applyReadiness_snd]
    show (handleMessageAux s ws (Except.ok (Decoded.joinMsg senderId meta vers))).2 = _
    simp only [handleMessageAux, hnone]
    simp

/-- Witness for claim C9: on an adapter with bound identity `"S"`, a join
frame with senderId `"A"` is answered with the peer frame and followed by
the peer-candidate notification with empty metadata. -/
theorem claim_C9_witness :
    (handleMessage (connect (addConnection initialState 0) "S" none) 0
        (RawMessage.valid (Decoded.joinMsg "A" none []))).2
      = [Output.wsSend 0 (cborEncode (OutboundMsg.peer "S" none "A" "1")),
         Output.emitPeerCandidate "A" emptyMetadata] :=
  (claim_C9 (connect (addConnection initialState 0) "S" none) 0
    { peerId := none, peerMetadata := none } "A" none [] rfl).2.1
    "S" rfl (by decide)

theorem sendTo_of_find_some (env : ReadyStates) (t : String) (m : RepoMessage)
    (l : ConnMap) (ws : Nat) (c : WebSocketConnection)
    (h : l.find? (fun q => q.2.peerId == some t && env q.1) = some (ws, c)) :
    sendTo env t m l = [Output.wsSend ws (cborEncode (OutboundMsg.repo m))] := by
  induction l with
  | nil => cases h
  | cons q rest ih =>
    obtain ⟨w', c'⟩ := q
    simp only [List.find?_cons] at h
    cases hcond : (c'.peerId == some t && env w') with
    | true =>
      rw [hcond] at h
      have h' : some (w', c') = some (ws, c) := h
      have hw : w' = ws := congrArg Prod.fst (Option.some.inj h')
      simp only [sendTo]
      rw [if_pos hcond, hw]
    | false =>
      rw [hcond] at h
      have h' : List.find? (fun q => q.2.peerId == some t && env q.1) rest
          = some (ws, c) := h
      simp only [sendTo]
      rw [if_neg (by simp [hcond])]
      exact ih h'

theorem sendTo_of_no_match (env : ReadyStates) (t : String) (m : RepoMessage)
    (l : ConnMap)
    (h : ∀ ws c, (ws, c) ∈ l → ¬ (c.peerId == some t && env ws) = true) :
    sendTo env t m l = [] := by
  induction l with
  | nil => rfl
  | cons q rest ih =>
    obtain ⟨w', c'⟩ := q
    simp only [sendTo]
    rw [if_neg (h w' c' (List.mem_cons_self _ _))]
    exact ih (fun ws c hm => h ws c (List.mem_cons_of_mem _ hm))

/-- Claim C5: for an outbound frame carrying a (truthy) targetId, `send`
writes the encoded frame to the first connection in registration order
whose recorded peer identity equals the targetId and whose transport is
open, and to no other; with no such connection it writes nothing and
returns normally. -/
theorem claim_C5 (s : AdapterState) (env : ReadyStates) (m : RepoMessage) (t : String)
    (ht : m.targetId = some t) (hne : t ≠ "") :
    (∀ ws c,
        s.connections.find? (fun q => q.2.peerId == some t && env q.1) = some (ws, c) →
        send s env m = [Output.wsSend ws (cborEncode (OutboundMsg.repo m))])
    ∧ (s.connections.find? (fun q => q.2.peerId == some t && env q.1) = none →
        send s env m = []) := by
  have hsend : send s env m = sendTo env t m s.connections := by
    unfold send
    rw [ht]
    simp only [truthy, Option.getD_some]
    rw [if_pos (by simp [hne])]
  constructor
  · intro ws c h
    rw [hsend]
    exact sendTo_of_find_some env t m s.connections ws c h
  · intro h
    rw [hsend]
    exact sendTo_of_no_match env t m s.connections
      (fun ws c hm => by simpa using List.find?_eq_none.mp h (ws, c) hm)

/-- Witness for claim C5: with one joined open connection for `"B"`, a
frame targeted at `"B"` is written exactly to it. -/
theorem claim_C5_witness :
    send { connections := [(0, { peerId := some "B", peerMetadata := none })],
           isConnected := true, peerId := some "S", peerMetadata := none }
        (fun _ => true)
        { type := "sync", senderId := "S", targetId := some "B", payload := [] }
      = [Output.wsSend 0 (cborEncode (OutboundMsg.repo
          { type := "sync", senderId := "S", targetId := some "B", payload := [] }))] :=
  (claim_C5 _ _ _ "B" rfl (by decide)).1 0
    { peerId := some "B", peerMetadata := none } (by decide)

theorem mem_broadcastTo (env : ReadyStates) (e : Encoded) (l : ConnMap)
    (w : Nat) (d : Encoded) :
    Output.wsSend w d ∈ broadcastTo env e l ↔
      d = e ∧ ∃ c, (w, c) ∈ l ∧ truthy c.peerId = true ∧ env w = true := by
  induction l with
  | nil => simp [broadcastTo]
  | cons q rest ih =>
    obtain ⟨w', c'⟩ := q
    simp only [broadcastTo]
    by_cases hcond : (truthy c'.peerId && env w') = true
    · rw [if_pos hcond]
      have hcond' := hcond
      rw [Bool.and_eq_true] at hcond'
      obtain ⟨ht', he'⟩ := hcond'
      constructor
      · intro hmem
        rcases List.mem_cons.mp hmem with heq | hmem'
        · injection heq with h1 h2
          subst h1
          subst h2
          exact ⟨rfl, c', List.mem_cons_self _ _, ht', he'⟩
        · obtain ⟨hd, c'', hm, ht2, he2⟩ := ih.mp hmem'
          exact ⟨hd, c'', List.mem_cons_of_mem _ hm, ht2, he2⟩
      · rintro ⟨rfl, c'', hm, ht2, he2⟩
        rcases List.mem_cons.mp hm with heq | hm'
        · have hw : w = w' := congrArg Prod.fst heq
          rw [hw]
          exact List.mem_cons_self _ _
        · exact List.mem_cons_of_mem _ (ih.mpr ⟨rfl, c'', hm', ht2, he2⟩)
    · rw [if_neg hcond]
      rw [ih]
      constructor
      · rintro ⟨hd, c'', hm, ht2, he2⟩
        exact ⟨hd, c'', List.mem_cons_of_mem _ hm, ht2, he2⟩
      · rintro ⟨hd, c'', hm, ht2, he2⟩
        rcases List.mem_cons.mp hm with heq | hm'
        · exfalso
          apply hcond
          have hw : w = w' := congrArg Prod.fst heq
          have hc : c'' = c' := congrArg Prod.snd heq
          rw [Bool.and_eq_true]
          exact ⟨hc ▸ ht2, hw ▸ he2⟩
        · exact ⟨hd, c'', hm', ht2, he2⟩

theorem connMap_mem_unique (l : ConnMap) (hnd : (l.map Prod.fst).Nodup) (w : Nat)
    (c c' : WebSocketConnection) (h1 : (w, c) ∈ l) (h2 : (w, c') ∈ l) : c = c' := by
  induction l with
  | nil => cases h1
  | cons q rest ih =>
    simp only [List.map_cons, List.nodup_cons] at hnd
    rcases List.mem_cons.mp h1 with he1 | hm1
    · rcases List.mem_cons.mp h2 with he2 | hm2
      · exact congrArg Prod.snd (he1.trans he2.symm)
      · exfalso
        apply hnd.1
        rw [← he1]
        exact List.mem_map.mpr ⟨(w, c'), hm2, rfl⟩
    · rcases List.mem_cons.mp h2 with he2 | hm2
      · exfalso
        apply hnd.1
        rw [← he2]
        exact List.mem_map.mpr ⟨(w, c), hm1, rfl⟩
      · exact ih hnd.2 hm1 hm2

/-- Claim C6: for an outbound frame with no (truthy) targetId, `send`
encodes the frame once and writes that encoding to every connection whose
recorded peer identity is (truthily) bound and whose transport is open,
and to no other — in particular never to a connection whose peer identity
is unset. -/
theorem claim_C6 (s : AdapterState) (env : ReadyStates) (m : RepoMessage)
    (ht : m.targetId = none) (hnd : (s.connections.map Prod.fst).Nodup) :
    (∀ ws c, (ws, c) ∈ s.connections → truthy c.peerId = true → env ws = true →
        Output.wsSend ws (cborEncode (OutboundMsg.repo m)) ∈ send s env m)
    ∧ (∀ ws d, Output.wsSend ws d ∈ send s env m →
        d = cborEncode (OutboundMsg.repo m)
        ∧ ∃ c, (ws, c) ∈ s.connections ∧ truthy c.peerId = true ∧ env ws = true)
    ∧ (∀ ws c, (ws, c) ∈ s.connections → c.peerId = none →
        ∀ d, Output.wsSend ws d ∉ send s env m) := by
  have hsend : send s env m = broadcastTo env (cborEncode (OutboundMsg.repo m))
      s.connections := by
    unfold send
    rw [ht]
    rfl
  rw [hsend]
  refine ⟨?_, ?_, ?_⟩
  · intro ws c hm htr he
    exact (mem_broadcastTo env _ s.connections ws _).mpr ⟨rfl, c, hm, htr, he⟩
  · intro ws d hmem
    obtain ⟨hd, c'', hm, ht2, he2⟩ := (mem_broadcastTo env _ s.connections ws d).mp hmem
    exact ⟨hd, c'', hm, ht2, he2⟩
  · intro ws c hm hpn d hmem
    obtain ⟨hd, c'', hm', ht2, he2⟩ := (mem_broadcastTo env _ s.connections ws d).mp hmem
    rw [connMap_mem_unique s.connections hnd ws c'' c hm' hm] at ht2
    rw [hpn] at ht2
    cases ht2

/-- Witness for claim C6: broadcasting with one joined and one unjoined
connection reaches the joined one. -/
theorem claim_C6_witness :
    Output.wsSend 0 (cborEncode (OutboundMsg.repo
        { type := "sync", senderId := "S", targetId := none, payload := [] }))
      ∈ send { connections := [(0, { peerId := some "B", peerMetadata := none }),
                               (1, { peerId := none, peerMetadata := none })],
               isConnected := true, peerId := some "S", peerMetadata := none }
          (fun _ => true)
          { type := "sync", senderId := "S", targetId := none, payload := [] } :=
  (claim_C6 _ _ _ rfl (by decide)).1 0
    { peerId := some "B", peerMetadata := none } (by decide) rfl rfl

theorem foldSteps_cons (s : AdapterState) (op : Op) (ops : List Op) :
    foldSteps s (op :: ops) = foldSteps (step s op) ops := rfl

theorem removeConnection_connections (s : AdapterState) (ws : Nat) :
    (removeConnection s ws).connections = mapDelete ws s.connections := rfl

theorem removeConnection_isConnected (s : AdapterState) (ws : Nat) :
    (removeConnection s ws).isConnected
      = if (mapDelete ws s.connections).isEmpty then false else s.isConnected := rfl

theorem connect_connections (s : AdapterState) (pid : String)
    (meta : Option PeerMetadata) : (connect s pid meta).connections = s.connections := by
  simp only [connect]
  split <;> rfl

theorem connect_peerId (s : AdapterState) (pid : String) (meta : Option PeerMetadata) :
    (connect s pid meta).peerId = some pid := by
  simp only [connect]
  split <;> rfl

theorem connect_isConnected (s : AdapterState) (pid : String)
    (meta : Option PeerMetadata) :
    (connect s pid meta).isConnected
      = if s.connections.isEmpty then s.isConnected else true := by
  unfold connect
  cases hce : s.connections.isEmpty <;> simp [hce]

theorem step_peerId (s : AdapterState) (op : Op)
    (h : ∀ pid meta, op ≠ Op.connect pid meta) : (step s op).peerId = s.peerId := by
  cases op with
  | addConnection ws => rfl
  | removeConnection ws => rfl
  | handleMessage ws m => exact (handleMessage_fst_spec s ws m).1
  | connect pid meta => exact absurd rfl (h pid meta)
  | disconnect env => rfl

theorem foldSteps_peerId (ops : List Op) : ∀ s : AdapterState,
    hasConnectOp ops = false → (foldSteps s ops).peerId = s.peerId := by
  induction ops with
  | nil => intro s _; rfl
  | cons op ops ih =>
    intro s h
    simp only [hasConnectOp, List.any_cons, Bool.or_eq_false_iff] at h
    rw [foldSteps_cons, ih (step s op) h.2]
    apply step_peerId
    intro pid meta hop
    subst hop
    simp at h

theorem step_no_add (s : AdapterState) (op : Op)
    (h : ∀ ws, op ≠ Op.addConnection ws)
    (hc : s.connections = []) (hic : s.isConnected = false) :
    (step s op).connections = [] ∧ (step s op).isConnected = false := by
  cases op with
  | addConnection ws => exact absurd rfl (h ws)
  | removeConnection ws =>
    constructor <;> simp [step, removeConnection, mapDelete, hc, hic]
  | handleMessage ws m =>
    rw [show step s (Op.handleMessage ws m) = (handleMessage s ws m).1 from rfl,
      handleMessage_unregistered s ws m (by rw [hc]; rfl)]
    exact ⟨hc, hic⟩
  | connect pid meta =>
    constructor <;> simp [step, connect, hc, hic]
  | disconnect env => exact ⟨rfl, rfl⟩

theorem foldSteps_no_add (ops : List Op) : ∀ s : AdapterState,
    hasAddOp ops = false → s.connections = [] → s.isConnected = false →
    (foldSteps s ops).connections = [] ∧ (foldSteps s ops).isConnected = false := by
  induction ops with
  | nil => intro s _ hc hic; exact ⟨hc, hic⟩
  | cons op ops ih =>
    intro s h hc hic
    simp only [hasAddOp, List.any_cons, Bool.or_eq_false_iff] at h
    have hnotadd : ∀ ws, op ≠ Op.addConnection ws := by
      intro ws hop
      subst hop
      simp at h
    have hstep := step_no_add s op hnotadd hc hic
    rw [foldSteps_cons]
    exact ih (step s op) h.2 hstep.1 hstep.2

theorem step_inv3 (s : AdapterState) (op : Op)
    (h : s.isConnected = true → s.connections ≠ []) :
    (step s op).isConnected = true → (step s op).connections ≠ [] := by
  cases op with
  | addConnection ws =>
    intro _
    exact mapSet_ne_nil ws _ s.connections
  | removeConnection ws =>
    intro hic hnil
    rw [show step s (Op.removeConnection ws) = removeConnection s ws from rfl] at hic hnil
    rw [removeConnection_connections] at hnil
    rw [removeConnection_isConnected, hnil] at hic
    simp at hic
  | handleMessage ws m =>
    cases hget : mapGet ws s.connections with
    | none =>
      rw [show step s (Op.handleMessage ws m) = (handleMessage s ws m).1 from rfl,
        handleMessage_unregistered s ws m hget]
      exact h
    | some r =>
      intro _
      exact (handleMessage_fst_spec s ws m).2.2.2 r hget
  | connect pid meta =>
    intro hic hnil
    rw [show step s (Op.connect pid meta) = connect s pid meta from rfl] at hic hnil
    rw [connect_connections] at hnil
    rw [connect_isConnected, hnil] at hic
    simp at hic
    exact h hic hnil
  | disconnect env =>
    intro hic
    exact Bool.noConfusion hic

theorem foldSteps_inv3 (ops : List Op) : ∀ s : AdapterState,
    (s.isConnected = true → s.connections ≠ []) →
    ((foldSteps s ops).isConnected = true → (foldSteps s ops).connections ≠ []) := by
  induction ops with
  | nil => intro s h; exact h
  | cons op ops ih =>
    intro s h
    rw [foldSteps_cons]
    exact ih (step s op) (step_inv3 s op h)

theorem runOps_inv3 (ops : List Op) :
    (runOps ops).isConnected = true → (runOps ops).connections ≠ [] :=
  foldSteps_inv3 ops initialState (fun hfalse => Bool.noConfusion hfalse)

theorem handleMessage_isReady (s : AdapterState) (ws : Nat) (m : RawMessage)
    (h : isReady s = true) : isReady (handleMessage s ws m).1 = true := by
  unfold isReady at h ⊢
  rw [Bool.and_eq_true] at h ⊢
  exact ⟨(handleMessage_fst_spec s ws m).2.2.1 h.1,
    by rw [(handleMessage_fst_spec s ws m).1]; exact h.2⟩

/-- Claim C4: over every sequence of relay operations, `isReady()` stays
false until both an identity binding (`connect`) and a connection
registration (`addConnection`) have occurred at least once; and once
true, it only turns false again on a step on which the connection set
goes from non-empty to empty. -/
theorem claim_C4 (ops : List Op) :
    ((hasConnectOp ops = false ∨ hasAddOp ops = false) →
        isReady (runOps ops) = false)
    ∧ (∀ op : Op, isReady (runOps ops) = true →
        isReady (step (runOps ops) op) = false →
        (runOps ops).connections ≠ [] ∧ (step (runOps ops) op).connections = []) := by
  constructor
  · rintro (hnc | hna)
    · have hpid := foldSteps_peerId ops initialState hnc
      unfold isReady runOps
      rw [hpid]
      simp [initialState]
    · have hfold := foldSteps_no_add ops initialState hna rfl rfl
      unfold isReady runOps
      rw [hfold.2]
      simp
  · intro op h1 h2
    have h1' := h1
    unfold isReady at h1'
    rw [Bool.and_eq_true] at h1'
    have hconn : (runOps ops).connections ≠ [] := runOps_inv3 ops h1'.1
    cases op with
    | addConnection ws =>
      rw [show isReady (step (runOps ops) (Op.addConnection ws))
          = isReady (runOps ops) from rfl, h1] at h2
      cases h2
    | removeConnection ws =>
      by_cases hce : (mapDelete ws (runOps ops).connections).isEmpty = true
      · refine ⟨hconn, ?_⟩
        rw [show (step (runOps ops) (Op.removeConnection ws)).connections
            = mapDelete ws (runOps ops).connections from rfl]
        exact List.isEmpty_iff.mp hce
      · exfalso
        unfold isReady at h2
        rw [show (step (runOps ops) (Op.removeConnection ws)).peerId
            = (runOps ops).peerId from rfl] at h2
        rw [show (step (runOps ops) (Op.removeConnection ws)).isConnected
            = (removeConnection (runOps ops) ws).isConnected from rfl,
          removeConnection_isConnected, if_neg hce, h1'.1, h1'.2] at h2
        cases h2
    | handleMessage ws m =>
      exfalso
      have := handleMessage_isReady (runOps ops) ws m h1
      rw [show step (runOps ops) (Op.handleMessage ws m)
          = (handleMessage (runOps ops) ws m).1 from rfl, this] at h2
      cases h2
    | connect pid meta =>
      exfalso
      have hce : (runOps ops).connections.isEmpty = false := by
        cases hq : (runOps ops).connections with
        | nil => exact absurd hq hconn
        | cons a l => rfl
      unfold isReady at h2
      rw [show (step (runOps ops) (Op.connect pid meta))
          = connect (runOps ops) pid meta from rfl,
        connect_isConnected, hce, connect_peerId] at h2
      simp at h2
    | disconnect env =>
      exact ⟨hconn, rfl⟩

/-- Witness for claim C4: with only a registered connection (no identity
binding) the adapter is not ready, and from a ready state a
`removeConnection` that makes it unready empties the connection set. -/
theorem claim_C4_witness :
    isReady (runOps [Op.addConnection 0]) = false
    ∧ ((runOps [Op.addConnection 0, Op.connect "S" none]).connections ≠ []
       ∧ (step (runOps [Op.addConnection 0, Op.connect "S" none])
            (Op.removeConnection 0)).connections = []) :=
  ⟨(claim_C4 [Op.addConnection 0]).1 (Or.inl rfl),
   (claim_C4 [Op.addConnection 0, Op.connect "S" none]).2
     (Op.removeConnection 0) rfl rfl⟩

end CloudflareWebSocketAdapter
